import Mathlib

/-!
Shallow embedding of `src/watt.py` (NewModelToolParser): a tool-call
extractor for a chat template that emits either a JSON-shaped call
`{"name": ..., "parameters": ...}` or a python-tag call
`<|python_tag|>name.call(args)`.  Strings are modelled as `List Char`;
Python exceptions as `Except PyError`; `re` searches of the two concrete
patterns `_JSON_RE` and `_PY_RE` are modelled by direct scanning functions
with the exact leftmost / greedy / lazy semantics those patterns have;
`json.loads` is modelled by a fuel-based recursive-descent JSON parser.
-/

/-! Character classes.  Python `\s` (ASCII part) and `\w` (ASCII part). -/

def isWsChar (c : Char) : Bool :=
  c = ' ' || c = '\t' || c = '\n' || c = '\r' || c = '\x0b' || c = '\x0c'

def isWordChar (c : Char) : Bool :=
  c.isAlphanum || c = '_'

/-- Python `str.strip()` (whitespace from both ends). -/
def stripL (s : List Char) : List Char :=
  ((s.dropWhile isWsChar).reverse.dropWhile isWsChar).reverse

def isQuoteChar (c : Char) : Bool :=
  c = '"' || c = '\''

/-- Python `str.strip("\"'")`: remove every leading and trailing `"` or `'`. -/
def stripQuoteChars (s : List Char) : List Char :=
  ((s.dropWhile isQuoteChar).reverse.dropWhile isQuoteChar).reverse

/-! Literal-matching primitives used to model the concrete regexes. -/

/-- Consume the literal `pat` from the front of `s`; `none` on mismatch. -/
def eatLit : List Char → List Char → Option (List Char)
  | [], s => some s
  | _ :: _, [] => none
  | p :: ps, c :: cs => if c = p then eatLit ps cs else none

/-- Consume one expected character. -/
def eatChar (p : Char) : List Char → Option (List Char)
  | [] => none
  | c :: cs => if c = p then some cs else none

/-- Model of greedy `\s*` in the patterns (always followed by a
non-whitespace literal, so greedy matching is deterministic). -/
def skipWs (s : List Char) : List Char :=
  s.dropWhile isWsChar

/-- Model of lazy `.*?\}` immediately followed by `\}` in `_JSON_RE`
(DOTALL): return the characters up to and including the first `}` that
is immediately followed by another `}`. -/
def lazyParams : List Char → Option (List Char)
  | [] => none
  | c :: rest =>
      if c = '}' ∧ rest.head? = some '}' then some ['}']
      else (lazyParams rest).map (fun xs => c :: xs)

/-- Model of lazy `.*?` immediately followed by `\)` in `_PY_RE`
(DOTALL): return the characters before the first `)`. -/
def lazyParen : List Char → Option (List Char)
  | [] => none
  | c :: rest =>
      if c = ')' then some []
      else (lazyParen rest).map (fun xs => c :: xs)

/-- Model of `re.search`: try the pattern at each position, left to
right, returning the first success. -/
def reSearch (f : List Char → Option α) : List Char → Option α
  | [] => f []
  | c :: rest =>
      match f (c :: rest) with
      | some r => some r
      | none => reSearch f rest

/-! The two regexes of the parser, as positional matchers. -/

/-- Leading literal `{"name"` of `_JSON_RE`. -/
def jsonNameLit : List Char := ['{', '"', 'n', 'a', 'm', 'e', '"']

/-- Literal `"parameters"` of `_JSON_RE`. -/
def jsonParamsLit : List Char :=
  ['"', 'p', 'a', 'r', 'a', 'm', 'e', 't', 'e', 'r', 's', '"']

def notQuote (c : Char) : Bool := c != '"'

/-- Match of `_JSON_RE` anchored at the head of `s`:
`\{"name"\s*:\s*"(?P<name>[^"]+)"\s*,\s*"parameters"\s*:\s*(?P<params>\{.*?\})\}`
with `re.DOTALL`.  Returns the `name` and `params` captures. -/
def jsonMatchAt (s : List Char) : Option (List Char × List Char) :=
  match eatLit jsonNameLit s with
  | none => none
  | some s1 =>
  match eatChar ':' (skipWs s1) with
  | none => none
  | some s2 =>
  match eatChar '"' (skipWs s2) with
  | none => none
  | some s3 =>
  let nm := s3.takeWhile notQuote
  if nm.isEmpty then none else
  match eatChar '"' (s3.dropWhile notQuote) with
  | none => none
  | some s4 =>
  match eatChar ',' (skipWs s4) with
  | none => none
  | some s5 =>
  match eatLit jsonParamsLit (skipWs s5) with
  | none => none
  | some s6 =>
  match eatChar ':' (skipWs s6) with
  | none => none
  | some s7 =>
  match eatChar '{' (skipWs s7) with
  | none => none
  | some s8 =>
  match lazyParams s8 with
  | none => none
  | some interior => some (nm, '{' :: interior)

/-- Literal `<|python_tag|>` prefix of `_PY_RE`. -/
def pyTagLit : List Char :=
  ['<', '|', 'p', 'y', 't', 'h', 'o', 'n', '_', 't', 'a', 'g', '|', '>']

/-- Literal `.call(` of `_PY_RE`. -/
def dotCallLit : List Char := ['.', 'c', 'a', 'l', 'l', '(']

/-- Match of `_PY_RE` anchored at the head of `s`:
`<\|python_tag\|>(?P<name>\w+)\.call\((?P<args>.*?)\)` with `re.DOTALL`.
Returns the `name` and `args` captures. -/
def pyMatchAt (s : List Char) : Option (List Char × List Char) :=
  match eatLit pyTagLit s with
  | none => none
  | some s1 =>
  let nm := s1.takeWhile isWordChar
  if nm.isEmpty then none else
  match eatLit dotCallLit (s1.dropWhile isWordChar) with
  | none => none
  | some s2 =>
  match lazyParen s2 with
  | none => none
  | some args => some (nm, args)

/-- `_JSON_RE.search`. -/
def jsonSearch (s : List Char) : Option (List Char × List Char) :=
  reSearch jsonMatchAt s

/-- `_PY_RE.search`. -/
def pySearch (s : List Char) : Option (List Char × List Char) :=
  reSearch pyMatchAt s

/-! Model of `json.loads` (Python `json` module, strict mode). -/

/-- Decoded JSON values.  Numbers keep their literal source characters
(the distinction between int and float plays no role here). -/
inductive JsonValue where
  | jnull : JsonValue
  | jbool (b : Bool) : JsonValue
  | jnum (lit : List Char) : JsonValue
  | jstr (s : List Char) : JsonValue
  | jarr (elems : List JsonValue) : JsonValue
  | jobj (fields : List (List Char × JsonValue)) : JsonValue

/-- Python-dict insertion: replace the value of an existing key in
place, otherwise append the new pair at the end. -/
def dictInsert (k : List Char) (v : JsonValue) :
    List (List Char × JsonValue) → List (List Char × JsonValue)
  | [] => [(k, v)]
  | (k', v') :: rest =>
      if k' = k then (k, v) :: rest else (k', v') :: dictInsert k v rest

/-- Value of one hexadecimal digit (0-9, a-f, A-F), by code point. -/
def hexDigitVal (c : Char) : Option Nat :=
  let n := c.toNat
  if 48 ≤ n ∧ n ≤ 57 then some (n - 48)
  else if 97 ≤ n ∧ n ≤ 102 then some (n - 87)
  else if 65 ≤ n ∧ n ≤ 70 then some (n - 55)
  else none

/-- JSON string escape map (after a backslash, other than `\u`). -/
def escMap (e : Char) : Option Char :=
  if e = '"' then some '"'
  else if e = '\\' then some '\\'
  else if e = '/' then some '/'
  else if e = 'b' then some '\x08'
  else if e = 'f' then some '\x0c'
  else if e = 'n' then some '\n'
  else if e = 'r' then some '\r'
  else if e = 't' then some '\t'
  else none

/-- Parse the body of a JSON string (opening quote already consumed);
returns the decoded characters and the rest after the closing quote.
Raw control characters are rejected (strict mode). -/
def parseJString : Nat → List Char → Option (List Char × List Char)
  | 0, _ => none
  | _ + 1, [] => none
  | fuel + 1, c :: rest =>
      if c = '"' then some ([], rest)
      else if c = '\\' then
        match rest with
        | [] => none
        | e :: rest2 =>
            if e = 'u' then
              match rest2 with
              | h1 :: h2 :: h3 :: h4 :: rest3 =>
                  match hexDigitVal h1, hexDigitVal h2,
                        hexDigitVal h3, hexDigitVal h4 with
                  | some a, some b, some c2, some d =>
                      (parseJString fuel rest3).map
                        (fun r =>
                          (Char.ofNat (((a * 16 + b) * 16 + c2) * 16 + d)
                            :: r.1, r.2))
                  | _, _, _, _ => none
              | _ => none
            else
              match escMap e with
              | some ec =>
                  (parseJString fuel rest2).map (fun r => (ec :: r.1, r.2))
              | none => none
      else if c.toNat < 32 then none
      else (parseJString fuel rest).map (fun r => (c :: r.1, r.2))

/-- JSON number grammar `-?(0|[1-9][0-9]*)(\.[0-9]+)?([eE][+-]?[0-9]+)?`;
returns the literal characters and the rest. -/
def parseJNumber (s : List Char) : Option (List Char × List Char) :=
  let (neg, s1) :=
    match s with
    | '-' :: r => (['-'], r)
    | _ => (([] : List Char), s)
  match s1 with
  | [] => none
  | c :: r =>
      if c = '0' then
        let intPart := [c]
        let rest := r
        (parseJNumFrac rest).map (fun fr => (neg ++ intPart ++ fr.1, fr.2))
      else if c.isDigit then
        let ds := r.takeWhile Char.isDigit
        let rest := r.dropWhile Char.isDigit
        (parseJNumFrac rest).map
          (fun fr => (neg ++ (c :: ds) ++ fr.1, fr.2))
      else none
where
  /-- Optional fraction then optional exponent. -/
  parseJNumFrac (s : List Char) : Option (List Char × List Char) :=
    let (fracPart, s2) :=
      match s with
      | '.' :: r =>
          let ds := r.takeWhile Char.isDigit
          if ds.isEmpty then ((none : Option (List Char)), s)
          else (some ('.' :: ds), r.dropWhile Char.isDigit)
      | _ => (none, s)
    match fracPart, s2 with
    | none, '.' :: _ => none
    | fp, s2 =>
        let fpl := fp.getD []
        match s2 with
        | e :: r =>
            if e = 'e' || e = 'E' then
              let (sgn, r2) :=
                match r with
                | '+' :: rr => (['+'], rr)
                | '-' :: rr => (['-'], rr)
                | _ => (([] : List Char), r)
              let ds := r2.takeWhile Char.isDigit
              if ds.isEmpty then none
              else some (fpl ++ (e :: sgn ++ ds), r2.dropWhile Char.isDigit)
            else some (fpl, s2)
        | [] => some (fpl, s2)

/-- Task tag for the single fuel-based JSON parsing function: a value, the
members of an object (after `{` and whitespace, at least one pair), or
the elements of an array (after `[` and whitespace, at least one value). -/
inductive JTask where
  | value : JTask
  | members (acc : List (List Char × JsonValue)) : JTask
  | elems (acc : List JsonValue) : JTask

/-- Recursive-descent JSON parser (fuel-based so it is structural). -/
def parseJ : Nat → JTask → List Char → Option (JsonValue × List Char)
  | 0, _, _ => none
  | fuel + 1, .value, s =>
      match s with
      | [] => none
      | c :: rest =>
          if c = '{' then
            match skipWs rest with
            | '}' :: r => some (.jobj [], r)
            | s2 => parseJ fuel (.members []) s2
          else if c = '[' then
            match skipWs rest with
            | ']' :: r => some (.jarr [], r)
            | s2 => parseJ fuel (.elems []) s2
          else if c = '"' then
            (parseJString fuel rest).map (fun r => (.jstr r.1, r.2))
          else if c = 't' then
            (eatLit ['r', 'u', 'e'] rest).map (fun r => (.jbool true, r))
          else if c = 'f' then
            (eatLit ['a', 'l', 's', 'e'] rest).map (fun r => (.jbool false, r))
          else if c = 'n' then
            (eatLit ['u', 'l', 'l'] rest).map (fun r => (.jnull, r))
          else if c = '-' || c.isDigit then
            (parseJNumber (c :: rest)).map (fun r => (.jnum r.1, r.2))
          else none
  | fuel + 1, .members acc, s =>
      match s with
      | '"' :: rest =>
          match parseJString fuel rest with
          | none => none
          | some (key, r1) =>
              match eatChar ':' (skipWs r1) with
              | none => none
              | some r2 =>
                  match parseJ fuel .value (skipWs r2) with
                  | none => none
                  | some (v, r3) =>
                      let acc2 := dictInsert key v acc
                      match skipWs r3 with
                      | ',' :: r4 => parseJ fuel (.members acc2) (skipWs r4)
                      | '}' :: r4 => some (.jobj acc2, r4)
                      | _ => none
      | _ => none
  | fuel + 1, .elems acc, s =>
      match parseJ fuel .value s with
      | none => none
      | some (v, r1) =>
          match skipWs r1 with
          | ',' :: r2 => parseJ fuel (.elems (v :: acc)) (skipWs r2)
          | ']' :: r2 => some (.jarr (v :: acc).reverse, r2)
          | _ => none

/-- Model of `json.loads`: one JSON value surrounded by optional
whitespace; anything else raises (returns `none`). -/
def jsonParse (s : List Char) : Option JsonValue :=
  match parseJ (2 * s.length + 8) .value (skipWs s) with
  | some (v, rest) => if (skipWs rest).isEmpty then some v else none
  | none => none

/-! The parser proper. -/

/-- Python exceptions the extraction can raise: `json.JSONDecodeError`
from `json.loads` (in Python a subclass of `ValueError`), and the
`ValueError` raised by unpacking `pair.split("=", 1)` when the piece
contains no `=`.  They are distinct exceptions. -/
inductive PyError where
  | jsonDecodeError : PyError
  | unpackValueError : PyError
deriving DecidableEq

structure ToolCall where
  name : List Char
  arguments : JsonValue

structure ExtractedToolCallInformation where
  tools_called : Bool
  tool_calls : List ToolCall
  content : Option (List Char)

structure DeltaMessage where
  role : List Char
  content : Option (List Char)
  tool_calls : List ToolCall

/-- Python `pair.split("=", 1)` followed by unpacking into `k, v`:
split at the first `=`; `none` when the piece contains no `=` (in which
case the unpacking raises `ValueError`). -/
def splitEq1 : List Char → Option (List Char × List Char)
  | [] => none
  | c :: rest =>
      if c = '=' then some ([], rest)
      else (splitEq1 rest).map (fun kv => (c :: kv.1, kv.2))

/-- One iteration of the kwargs loop of the `_PY_RE` branch of
`extract_tool_calls`: decode one comma-separated piece into the growing
kwargs dict. -/
def decodeArgPiece (kwargs : List (List Char × JsonValue)) (piece : List Char) :
    Except PyError (List (List Char × JsonValue)) :=
  match splitEq1 piece with
  | none => .error .unpackValueError
  | some (k, v) =>
      let vs := stripL v
      if vs.head? == some '{' || vs.head? == some '[' then
        match jsonParse vs with
        | some jv => .ok (dictInsert (stripL k) jv kwargs)
        | none => .error .jsonDecodeError
      else .ok (dictInsert (stripL k) (.jstr (stripQuoteChars vs)) kwargs)

/-- The kwargs decoding of the `_PY_RE` branch: empty dict when the
capture strips to nothing, otherwise split on every comma and decode the
pieces in order, propagating the first exception. -/
def decodeCallArgs (args_s : List Char) :
    Except PyError (List (List Char × JsonValue)) :=
  if (stripL args_s).isEmpty then .ok []
  else (args_s.splitOn ',').foldlM decodeArgPiece []

/-- Marker `<|eot_id|>`. -/
def eotLit : List Char := ['<', '|', 'e', 'o', 't', '_', 'i', 'd', '|', '>']

/-- Marker `<|eom_id|>`. -/
def eomLit : List Char := ['<', '|', 'e', 'o', 'm', '_', 'i', 'd', '|', '>']

/-- Does `s` start with `pat`? -/
def startsWithL : List Char → List Char → Bool
  | [], _ => true
  | _ :: _, [] => false
  | p :: ps, c :: cs => p = c && startsWithL ps cs

/-- Python substring containment `pat in s`. -/
def containsSub (pat : List Char) : List Char → Bool
  | [] => startsWithL pat []
  | c :: rest => startsWithL pat (c :: rest) || containsSub pat rest

/-- `NewModelToolParser.extract_tool_calls` (non-streaming): try
`_JSON_RE` first, else `_PY_RE`, else return the whole text as plain
content.  The (unused) `request` parameter of the Python method is
omitted. -/
def extract_tool_calls (model_output : List Char) :
    Except PyError ExtractedToolCallInformation :=
  match jsonSearch model_output with
  | some (nm, params_s) =>
      match jsonParse params_s with
      | some v => .ok ⟨true, [⟨nm, v⟩], none⟩
      | none => .error .jsonDecodeError
  | none =>
      match pySearch model_output with
      | some (nm, args_s) =>
          match decodeCallArgs args_s with
          | .ok kwargs => .ok ⟨true, [⟨nm, .jobj kwargs⟩], none⟩
          | .error e => .error e
      | none => .ok ⟨false, [], some model_output⟩

/-- Role string of the streamed `DeltaMessage`. -/
def assistantRole : List Char :=
  ['a', 's', 's', 'i', 's', 't', 'a', 'n', 't']

/-- `NewModelToolParser.extract_tool_calls_streaming`: return `none`
until the accumulated text contains `<|eot_id|>` or `<|eom_id|>`, then
run the non-streaming extraction on the whole accumulated text; return
`none` when it found no tool call.  Only `current_text` is used by the
Python method; its other parameters (previous text, delta, token ids,
request) are omitted. -/
def extract_tool_calls_streaming (current_text : List Char) :
    Except PyError (Option DeltaMessage) :=
  if containsSub eotLit current_text = false ∧
      containsSub eomLit current_text = false then
    .ok none
  else
    match extract_tool_calls current_text with
    | .error e => .error e
    | .ok info =>
        if info.tools_called then
          .ok (some ⟨assistantRole, none, info.tool_calls⟩)
        else .ok none

/-! Concrete inputs taken from the spec's literal examples and from the
boundary cases the claims are about. -/

/-- Round-trip literal example 1 of the spec (StructuredEncoding). -/
def inputC8 : List Char :=
  ("Sure.\x7b\"name\": \"get_weather\", \"parameters\": \x7b\"city\": \"Boston\"\x7d\x7d<|eot_id|>").toList

/-- Round-trip literal example 2 of the spec (CallSyntaxEncoding with a
string, a bare numeral and a JSON-list argument). -/
def inputC1 : List Char :=
  ("<|python_tag|>search.call(query=\"rust ownership\", limit=5, tags=[\"lang\",\"safety\"])<|eom_id|>").toList

/-- The argument mapping the claim C1 predicts for `inputC1`. -/
def claimedArgsC1 : JsonValue :=
  .jobj
    [(("query").toList, .jstr ("rust ownership").toList),
     (("limit").toList, .jstr ['5']),
     (("tags").toList, .jarr [.jstr ("lang").toList, .jstr ("safety").toList])]

/-- Malformed-parameters input of the spec's malformed case. -/
def inputC4 : List Char :=
  ("\x7b\"name\": \"x\", \"parameters\": \x7bbad json\x7d\x7d<|eot_id|>").toList

/-- CallSyntax input whose only argument value contains a comma outside
any JSON bracket. -/
def inputC10 : List Char :=
  ("<|python_tag|>f.call(msg=\"a, b\")<|eom_id|>").toList

/-- StructuredEncoding input whose parameters object contains nested
braces: `{"name": "f", "parameters": {"a": {"b": 1}}}<|eot_id|>`. -/
def inputC3 : List Char :=
  ("\x7b\"name\": \"f\", \"parameters\": \x7b\"a\": \x7b\"b\": 1\x7d\x7d\x7d<|eot_id|>").toList

/-- What `_JSON_RE` actually captures as `params` on `inputC3` (stops at
the first `}` that is followed by another `}`). -/
def jsonCaptureC3 : List Char :=
  ("\x7b\"a\": \x7b\"b\": 1\x7d").toList

/-- The whole bounded parameters literal embedded in `inputC3`. -/
def paramsLiteralC3 : List Char :=
  ("\x7b\"a\": \x7b\"b\": 1\x7d\x7d").toList

/-- CallSyntax input with empty parentheses. -/
def inputC9 : List Char := ("<|python_tag|>ping.call()<|eom_id|>").toList

/-- A buffer holding a complete structural match but no terminator. -/
def inputC5 : List Char :=
  ("\x7b\"name\": \"f\", \"parameters\": \x7b\x7d\x7d").toList

/-- A buffer holding a terminator but no structural match. -/
def inputC6 : List Char := ("hello<|eot_id|>").toList

/-- First streamed buffer of the C2 counterexample turn: the argument
value itself contains the end-of-message marker substring. -/
def c2buf1 : List Char := ("<|python_tag|>f.call(x=\"<|eom_id|>\"").toList

/-- Second streamed buffer: the closing parenthesis has arrived. -/
def c2buf2 : List Char := ("<|python_tag|>f.call(x=\"<|eom_id|>\")").toList

/-- Third streamed buffer: the complete turn, closed by its true
terminator. -/
def c2buf3 : List Char :=
  ("<|python_tag|>f.call(x=\"<|eom_id|>\")<|eom_id|>").toList

/-! Claim theorems: concrete and single-branch claims. -/

/-- C8: on the spec's literal example 1, the non-streaming extraction
returns the invocation `get_weather` with arguments `{"city": "Boston"}`,
with `tools_called` true and `content` null. -/
theorem c8_structured_literal_example :
    extract_tool_calls inputC8 =
      Except.ok ⟨true,
        [⟨("get_weather").toList,
          .jobj [(("city").toList, .jstr ("Boston").toList)]⟩], none⟩ := rfl

/-- C1 counterexample: on the spec's literal example 2 the extraction
does not return the claimed invocation; it raises the JSON-decode error,
because the naive comma split cuts the list argument
`tags=["lang","safety"]` at its inner comma and `json.loads` then fails
on the truncated piece `["lang`. -/
theorem c1_counterexample :
    extract_tool_calls inputC1 = Except.error PyError.jsonDecodeError ∧
    extract_tool_calls inputC1 ≠
      Except.ok ⟨true, [⟨("search").toList, claimedArgsC1⟩], none⟩ := by
  refine ⟨rfl, ?_⟩
  rw [show extract_tool_calls inputC1 = Except.error PyError.jsonDecodeError
    from rfl]
  simp

/-- C1 amended: on that same input, the non-streaming extraction raises
the argument-decode error (`MalformedArgumentsError`, modelled by
`PyError.jsonDecodeError`) and returns no invocation at all. -/
theorem c1_amended_raises :
    extract_tool_calls inputC1 = Except.error PyError.jsonDecodeError := rfl

/-- C4: whenever `_JSON_RE` matches but the captured parameters text is
not valid JSON, the non-streaming extraction raises the decode error; it
never returns an empty or guessed argument mapping for such input. -/
theorem c4_malformed_raises (s nm p : List Char)
    (hj : jsonSearch s = some (nm, p)) (hp : jsonParse p = none) :
    extract_tool_calls s = Except.error PyError.jsonDecodeError := by
  unfold extract_tool_calls
  simp only [hj, hp]

/-- C4 witness: the spec's malformed-case input
`{"name": "x", "parameters": {bad json}}<|eot_id|>` matches with capture
`{bad json}`, which is invalid JSON, so extraction raises. -/
theorem c4_malformed_raises_witness :
    jsonSearch inputC4 = some (['x'], ("\x7bbad json\x7d").toList) ∧
    jsonParse (("\x7bbad json\x7d").toList) = none ∧
    extract_tool_calls inputC4 = Except.error PyError.jsonDecodeError :=
  ⟨rfl, rfl, c4_malformed_raises inputC4 ['x'] (("\x7bbad json\x7d").toList) rfl rfl⟩

/-- C5: while the accumulated buffer contains neither `<|eot_id|>` nor
`<|eom_id|>`, the streaming extraction returns no output, whatever the
buffer contains. -/
theorem c5_pending_returns_none (cur : List Char)
    (h1 : containsSub eotLit cur = false)
    (h2 : containsSub eomLit cur = false) :
    extract_tool_calls_streaming cur = Except.ok none := by
  unfold extract_tool_calls_streaming
  rw [if_pos ⟨h1, h2⟩]

/-- C5 witness: a buffer holding a full, visible structural match but no
terminator still yields no streaming output. -/
theorem c5_pending_returns_none_witness :
    containsSub eotLit inputC5 = false ∧
    containsSub eomLit inputC5 = false ∧
    extract_tool_calls inputC5 =
      Except.ok ⟨true, [⟨['f'], .jobj []⟩], none⟩ ∧
    extract_tool_calls_streaming inputC5 = Except.ok none :=
  ⟨rfl, rfl, rfl, c5_pending_returns_none inputC5 rfl rfl⟩

/-- C6: when the accumulated buffer contains a terminator but the full
extraction finds no structural match (plain text), the streaming
extraction returns no output rather than an error or a message. -/
theorem c6_no_match_returns_none (cur : List Char)
    (info : ExtractedToolCallInformation)
    (hterm : containsSub eotLit cur = true ∨ containsSub eomLit cur = true)
    (hex : extract_tool_calls cur = Except.ok info)
    (hpt : info.tools_called = false) :
    extract_tool_calls_streaming cur = Except.ok none := by
  unfold extract_tool_calls_streaming
  rw [if_neg ?hneg]
  case hneg =>
    rintro ⟨h1, h2⟩
    rcases hterm with h | h
    · rw [h] at h1; exact Bool.noConfusion h1
    · rw [h] at h2; exact Bool.noConfusion h2
  rw [hex]
  simp [hpt]

/-- C6 witness: `hello<|eot_id|>` contains the terminator, extraction
yields plain text, and streaming emits no output. -/
theorem c6_no_match_returns_none_witness :
    containsSub eotLit inputC6 = true ∧
    extract_tool_calls inputC6 = Except.ok ⟨false, [], some inputC6⟩ ∧
    extract_tool_calls_streaming inputC6 = Except.ok none :=
  ⟨rfl, rfl,
    c6_no_match_returns_none inputC6 ⟨false, [], some inputC6⟩
      (Or.inl rfl) rfl rfl⟩

/-- C10: on `<|python_tag|>f.call(msg="a, b")<|eom_id|>`, whose argument
value contains a comma outside any `{`/`[` JSON value, the extraction
raises the unpack `ValueError` (from `k, v = pair.split("=", 1)` on the
piece ` b"`, which contains no `=`), an exception distinct from the
argument-decode error; no outcome is returned. -/
theorem c10_unpack_value_error :
    extract_tool_calls inputC10 = Except.error PyError.unpackValueError ∧
    PyError.unpackValueError ≠ PyError.jsonDecodeError :=
  ⟨rfl, by decide⟩

/-- Input for the C7 witness: a flat structured call. -/
def inputC7w : List Char :=
  ("\x7b\"name\": \"g\", \"parameters\": \x7b\x7d\x7d<|eot_id|>").toList

/-- C7: the tool-call list of any successful extraction has length at
most one; when `_JSON_RE` matches anywhere, the result is built from
that (first) match; `_PY_RE` is only consulted when `_JSON_RE` matches
nowhere, and then the result is built from its first match. -/
theorem c7_at_most_one_invocation (s : List Char) :
    (∀ info, extract_tool_calls s = Except.ok info →
      info.tool_calls.length ≤ 1) ∧
    (∀ nm p, jsonSearch s = some (nm, p) →
      extract_tool_calls s =
        match jsonParse p with
        | some v => Except.ok ⟨true, [⟨nm, v⟩], none⟩
        | none => Except.error PyError.jsonDecodeError) ∧
    (jsonSearch s = none → ∀ nm a, pySearch s = some (nm, a) →
      extract_tool_calls s =
        match decodeCallArgs a with
        | Except.ok kwargs => Except.ok ⟨true, [⟨nm, .jobj kwargs⟩], none⟩
        | Except.error e => Except.error e) := by
  refine ⟨?_, ?_, ?_⟩
  · intro info h
    unfold extract_tool_calls at h
    split at h
    · split at h
      · injection h with h2
        subst h2
        simp
      · exact Except.noConfusion h
    · split at h
      · split at h
        · injection h with h2
          subst h2
          simp
        · exact Except.noConfusion h
      · injection h with h2
        subst h2
        simp
  · intro nm p hj
    unfold extract_tool_calls
    rw [hj]
  · intro hj nm a hp
    unfold extract_tool_calls
    rw [hj, hp]

/-- C7 witness: on a concrete input where `_JSON_RE` matches, the result
is the JSON-branch invocation and carries exactly one tool call. -/
theorem c7_at_most_one_invocation_witness :
    extract_tool_calls inputC7w =
      Except.ok ⟨true, [⟨['g'], .jobj []⟩], none⟩ ∧
    (1 : Nat) ≤ 1 :=
  ⟨(c7_at_most_one_invocation inputC7w).2.1 ['g'] (['{'] ++ ['}']) rfl,
   (c7_at_most_one_invocation inputC7w).1 ⟨true, [⟨['g'], .jobj []⟩], none⟩
     ((c7_at_most_one_invocation inputC7w).2.1 ['g'] (['{'] ++ ['}']) rfl)⟩

/-- C9: whenever `_JSON_RE` matches nowhere and `_PY_RE` matches with an
argument capture that strips to nothing, the extraction returns an
invocation with an empty argument mapping and does not raise. -/
theorem c9_empty_args_empty_mapping (s nm a : List Char)
    (hj : jsonSearch s = none) (hp : pySearch s = some (nm, a))
    (ha : stripL a = []) :
    extract_tool_calls s = Except.ok ⟨true, [⟨nm, .jobj []⟩], none⟩ := by
  unfold extract_tool_calls
  rw [hj, hp]
  simp [decodeCallArgs, ha]

/-- C9 witness: `<|python_tag|>ping.call()<|eom_id|>` yields the
invocation `ping` with an empty argument mapping. -/
theorem c9_empty_args_empty_mapping_witness :
    jsonSearch inputC9 = none ∧
    pySearch inputC9 = some (("ping").toList, []) ∧
    stripL ([] : List Char) = [] ∧
    extract_tool_calls inputC9 =
      Except.ok ⟨true, [⟨("ping").toList, .jobj []⟩], none⟩ :=
  ⟨rfl, rfl, rfl,
    c9_empty_args_empty_mapping inputC9 (("ping").toList) [] rfl rfl rfl⟩

/-- C3 counterexample: on an input embedding the well-formed
StructuredEncoding object `{"name": "f", "parameters": {"a": {"b": 1}}}`
whose parameters contain nested braces, the non-greedy pattern captures
only the truncated text `{"a": {"b": 1}` — not the whole bounded
parameters literal — and extraction raises the decode error instead of
returning the embedded invocation. -/
theorem c3_counterexample :
    jsonSearch inputC3 = some (['f'], jsonCaptureC3) ∧
    jsonCaptureC3 ≠ paramsLiteralC3 ∧
    extract_tool_calls inputC3 = Except.error PyError.jsonDecodeError ∧
    extract_tool_calls inputC3 ≠
      Except.ok ⟨true,
        [⟨['f'], .jobj [(['a'], .jobj [(['b'], .jnum ['1'])])]⟩], none⟩ := by
  refine ⟨rfl, by decide, rfl, ?_⟩
  rw [show extract_tool_calls inputC3 = Except.error PyError.jsonDecodeError
    from rfl]
  simp

/-- C2 counterexample: the turn
`<|python_tag|>f.call(x="<|eom_id|>")<|eom_id|>` is a complete valid
encoded turn (its extraction succeeds), yet for the split into the three
deltas ending at `c2buf1`, `c2buf2`, `c2buf3` the streaming extraction
emits nothing on the first buffer that contains the end-of-message
marker (`c2buf1`) and then emits a result twice (`c2buf2` and `c2buf3`):
not exactly one result, not at the first marker-containing evaluation,
and a second event for the same turn. -/
theorem c2_counterexample :
    c2buf1 ++ [')'] = c2buf2 ∧
    c2buf2 ++ eomLit = c2buf3 ∧
    extract_tool_calls c2buf3 =
      Except.ok ⟨true, [⟨['f'], .jobj [(['x'], .jstr eomLit)]⟩], none⟩ ∧
    containsSub eomLit c2buf1 = true ∧
    extract_tool_calls_streaming c2buf1 = Except.ok none ∧
    extract_tool_calls_streaming c2buf2 =
      Except.ok (some ⟨assistantRole, none,
        [⟨['f'], .jobj [(['x'], .jstr eomLit)]⟩]⟩) ∧
    extract_tool_calls_streaming c2buf3 =
      Except.ok (some ⟨assistantRole, none,
        [⟨['f'], .jobj [(['x'], .jstr eomLit)]⟩]⟩) :=
  ⟨rfl, rfl, rfl, rfl, rfl, rfl, rfl⟩

/-- Helper for C2: the flattening of a strict initial segment of the
delta list is a strictly shorter initial segment of the whole turn. -/
theorem flatten_take_lt (ds : List (List Char)) (k : Nat)
    (hmem : ∀ d ∈ ds, d ≠ []) (hk : k + 1 < ds.length) :
    ((ds.take (k + 1)).flatten).length < ds.flatten.length ∧
    ds.flatten.take ((ds.take (k + 1)).flatten).length =
      (ds.take (k + 1)).flatten := by
  have hsplit : (ds.take (k + 1)).flatten ++ (ds.drop (k + 1)).flatten =
      ds.flatten := by
    rw [← List.flatten_append, List.take_append_drop]
  have hdnil : (ds.drop (k + 1)).flatten ≠ [] := by
    intro h0
    have hall := List.flatten_eq_nil_iff.mp h0
    have hd : ds.drop (k + 1) ≠ [] := by
      intro hnil
      have := List.drop_eq_nil_iff.mp hnil
      omega
    obtain ⟨x, hx⟩ := List.exists_mem_of_ne_nil _ hd
    exact hmem x (List.mem_of_mem_drop hx) (hall x hx)
  constructor
  · rw [← hsplit, List.length_append]
    have := List.length_pos.mpr hdnil
    omega
  · rw [← hsplit, List.take_left]

/-- C2 amended: for any split of a complete valid encoded turn into
non-empty deltas, provided the terminator markers occur nowhere in a
proper prefix of the turn (the turn's only marker occurrence is the
terminator that closes it), the streaming extraction returns no output
on every evaluation but the last, and emits exactly one result, on the
final evaluation — which is the first whose accumulated buffer contains
a terminator.  (The code keeps no fired-latch, so for turns whose
argument text itself contains a marker substring, a result can be
emitted more than once; see the C2 counterexample.) -/
theorem c2_streaming_single_fire (ds : List (List Char))
    (info : ExtractedToolCallInformation)
    (hmem : ∀ d ∈ ds, d ≠ [])
    (hpre : ∀ i, i < ds.flatten.length →
      containsSub eotLit (ds.flatten.take i) = false ∧
      containsSub eomLit (ds.flatten.take i) = false)
    (hterm : ¬(containsSub eotLit ds.flatten = false ∧
               containsSub eomLit ds.flatten = false))
    (hfire : extract_tool_calls ds.flatten = Except.ok info)
    (hcalled : info.tools_called = true) :
    (∀ k, k + 1 < ds.length →
      extract_tool_calls_streaming ((ds.take (k + 1)).flatten) =
        Except.ok none) ∧
    extract_tool_calls_streaming ds.flatten =
      Except.ok (some ⟨assistantRole, none, info.tool_calls⟩) := by
  constructor
  · intro k hk
    obtain ⟨hlt, htake⟩ := flatten_take_lt ds k hmem hk
    obtain ⟨h1, h2⟩ := hpre ((ds.take (k + 1)).flatten).length hlt
    rw [htake] at h1 h2
    unfold extract_tool_calls_streaming
    rw [if_pos ⟨h1, h2⟩]
  · unfold extract_tool_calls_streaming
    rw [if_neg hterm, hfire]
    simp [hcalled]

/-- Delta split used by the C2 amended witness: three non-empty deltas
of the turn `<|python_tag|>f.call()<|eom_id|>`. -/
def dsC2w : List (List Char) :=
  [("<|python_tag|>f.").toList, ("call()").toList, eomLit]

/-- C2 amended witness: on the concrete three-delta split, the first two
evaluations return no output and the final one emits the single
invocation. -/
theorem c2_streaming_single_fire_witness :
    extract_tool_calls_streaming ((dsC2w.take 1).flatten) = Except.ok none ∧
    extract_tool_calls_streaming ((dsC2w.take 2).flatten) = Except.ok none ∧
    extract_tool_calls_streaming dsC2w.flatten =
      Except.ok (some ⟨assistantRole, none, [⟨['f'], .jobj []⟩]⟩) := by
  have h := c2_streaming_single_fire dsC2w ⟨true, [⟨['f'], .jobj []⟩], none⟩
    (by decide) (by decide) (by decide) rfl rfl
  exact ⟨h.1 0 (by decide), h.1 1 (by decide), h.2⟩

/-! Supporting lemmas for the amended C3 theorem: behaviour of the
`_JSON_RE` model on a text embedding a structured call whose parameters
object has a brace-free interior. -/

theorem takeWhile_append_all {α : Type} (p : α → Bool) (xs : List α)
    (y : α) (r : List α) (hall : ∀ x ∈ xs, p x = true) (hy : p y = false) :
    (xs ++ y :: r).takeWhile p = xs := by
  induction xs with
  | nil => simp [List.takeWhile_cons, hy]
  | cons a l ih =>
      have ha := hall a (List.mem_cons_self a l)
      rw [List.cons_append, List.takeWhile_cons, if_pos ha,
        ih (fun x hx => hall x (List.mem_cons_of_mem a hx))]

theorem dropWhile_append_all {α : Type} (p : α → Bool) (xs : List α)
    (y : α) (r : List α) (hall : ∀ x ∈ xs, p x = true) (hy : p y = false) :
    (xs ++ y :: r).dropWhile p = y :: r := by
  induction xs with
  | nil => simp [List.dropWhile_cons, hy]
  | cons a l ih =>
      have ha := hall a (List.mem_cons_self a l)
      rw [List.cons_append, List.dropWhile_cons, if_pos ha,
        ih (fun x hx => hall x (List.mem_cons_of_mem a hx))]

/-- The lazy params scan on a brace-free interior followed by `}}`
captures exactly the interior plus the first closing brace. -/
theorem lazyParams_append (body rest : List Char) (hb : '}' ∉ body) :
    lazyParams (body ++ '}' :: '}' :: rest) = some (body ++ ['}']) := by
  induction body with
  | nil => simp [lazyParams]
  | cons c cs ih =>
      have hc : c ≠ '}' := fun e => hb (e ▸ List.mem_cons_self c cs)
      have hcs : '}' ∉ cs := fun h => hb (List.mem_cons_of_mem c h)
      rw [List.cons_append]
      unfold lazyParams
      rw [if_neg (fun h => hc h.1), ih hcs]
      rfl

/-- The `_JSON_RE` pattern cannot match at a position whose first
character is not `{`. -/
theorem jsonMatchAt_head_ne (c : Char) (s : List Char) (h : c ≠ '{') :
    jsonMatchAt (c :: s) = none := by
  simp [jsonMatchAt, jsonNameLit, eatLit, h]

/-- A search can skip a leading segment containing no `{`. -/
theorem jsonSearch_append (pre t : List Char) (h : '{' ∉ pre) :
    jsonSearch (pre ++ t) = jsonSearch t := by
  induction pre with
  | nil => rfl
  | cons c cs ih =>
      have hc : c ≠ '{' := fun e => h (e ▸ List.mem_cons_self c cs)
      have hcs : '{' ∉ cs := fun hx => h (List.mem_cons_of_mem c hx)
      rw [List.cons_append]
      show reSearch jsonMatchAt (c :: (cs ++ t)) = _
      unfold reSearch
      rw [jsonMatchAt_head_ne c _ hc]
      exact ih hcs

/-- A search succeeds immediately when the pattern matches at the head. -/
theorem reSearch_some {α : Type} (f : List Char → Option α) (s : List Char)
    (x : α) (h : f s = some x) : reSearch f s = some x := by
  cases s with
  | nil => unfold reSearch; exact h
  | cons c cs => unfold reSearch; rw [h]

/-- Canonical text of a StructuredEncoding object
`{"name": "<n>", "parameters": {<body>}}`. -/
def seObject (n body : List Char) : List Char :=
  ['{', '"', 'n', 'a', 'm', 'e', '"', ':', ' ', '"'] ++
    (n ++ (['"', ',', ' ', '"', 'p', 'a', 'r', 'a', 'm', 'e', 't', 'e',
            'r', 's', '"', ':', ' ', '{'] ++ (body ++ ['}', '}'])))

/-- On a structured object with non-empty quote-free name and brace-free
parameter interior, the `_JSON_RE` model matches at the head and
captures the name and the whole parameters literal. -/
theorem jsonMatchAt_seObject (n body post : List Char)
    (hn : n ≠ []) (hnq : '"' ∉ n) (hb : '}' ∉ body) :
    jsonMatchAt (seObject n body ++ post) =
      some (n, '{' :: (body ++ ['}'])) := by
  have hall : ∀ x ∈ n, notQuote x = true := by
    intro x hx
    have hxq : x ≠ '"' := fun e => hnq (e ▸ hx)
    simp [notQuote, hxq]
  have hne : n.isEmpty = false := by
    cases n with
    | nil => exact absurd rfl hn
    | cons a l => rfl
  have hA : ∀ r : List Char,
      eatLit jsonNameLit ('{' :: '"' :: 'n' :: 'a' :: 'm' :: 'e' :: '"' :: r) = some r :=
    fun _ => rfl
  have hB : ∀ r : List Char, eatChar ':' (skipWs (':' :: r)) = some r :=
    fun _ => rfl
  have hC : ∀ r : List Char, eatChar '"' (skipWs (' ' :: '"' :: r)) = some r :=
    fun _ => rfl
  have hE : ∀ r : List Char, eatChar '"' ('"' :: r) = some r := fun _ => rfl
  have hF : ∀ r : List Char, eatChar ',' (skipWs (',' :: r)) = some r :=
    fun _ => rfl
  have hG : ∀ r : List Char,
      eatLit jsonParamsLit
        (skipWs (' ' :: '"' :: 'p' :: 'a' :: 'r' :: 'a' :: 'm' :: 'e' :: 't' :: 'e' :: 'r' :: 's' :: '"' :: r)) =
        some r := fun _ => rfl
  have hH : ∀ r : List Char, eatChar '{' (skipWs (' ' :: '{' :: r)) = some r :=
    fun _ => rfl
  have hT : (n ++ ('"' :: ',' :: ' ' :: '"' :: 'p' :: 'a' :: 'r' :: 'a' :: 'm' :: 'e' :: 't' ::
      'e' :: 'r' :: 's' :: '"' :: ':' :: ' ' :: '{' :: (body ++ ('}' :: '}' :: post)))).takeWhile
        notQuote = n :=
    takeWhile_append_all notQuote n '"' _ hall rfl
  have hD : (n ++ ('"' :: ',' :: ' ' :: '"' :: 'p' :: 'a' :: 'r' :: 'a' :: 'm' :: 'e' :: 't' ::
      'e' :: 'r' :: 's' :: '"' :: ':' :: ' ' :: '{' :: (body ++ ('}' :: '}' :: post)))).dropWhile
        notQuote = '"' :: ',' :: ' ' :: '"' :: 'p' :: 'a' :: 'r' :: 'a' :: 'm' :: 'e' :: 't' ::
          'e' :: 'r' :: 's' :: '"' :: ':' :: ' ' :: '{' :: (body ++ ('}' :: '}' :: post)) :=
    dropWhile_append_all notQuote n '"' _ hall rfl
  rw [show seObject n body ++ post =
      '{' :: '"' :: 'n' :: 'a' :: 'm' :: 'e' :: '"' :: ':' :: ' ' :: '"' ::
        (n ++ ('"' :: ',' :: ' ' :: '"' :: 'p' :: 'a' :: 'r' :: 'a' :: 'm' :: 'e' :: 't' :: 'e' ::
          'r' :: 's' :: '"' :: ':' :: ' ' :: '{' :: (body ++ ('}' :: '}' :: post))))
    from by simp [seObject, List.append_assoc]]
  unfold jsonMatchAt
  simp only [hA, hB, hC, hT, hD, hne, hE, hF, hG, hH,
    lazyParams_append body post hb, Bool.false_eq_true, if_false]

/-- C3 amended: for every text `pre ++ obj ++ post` embedding a
well-formed StructuredEncoding object `obj` whose name is non-empty and
quote-free, whose parameters interior contains no braces and parses as
JSON, and where no `{` occurs before the object, the non-streaming
extraction returns the invocation whose name and arguments exactly match
the embedded JSON, with `tools_called` true.  (The original claim's
"including nested braces" fails: the non-greedy capture then truncates;
see the C3 counterexample.) -/
theorem c3_structured_exact (pre n body post : List Char) (v : JsonValue)
    (hpre : '{' ∉ pre) (hn : n ≠ []) (hnq : '"' ∉ n) (hb : '}' ∉ body)
    (hparse : jsonParse ('{' :: (body ++ ['}'])) = some v) :
    extract_tool_calls (pre ++ seObject n body ++ post) =
      Except.ok ⟨true, [⟨n, v⟩], none⟩ := by
  have hsearch : jsonSearch (pre ++ seObject n body ++ post) =
      some (n, '{' :: (body ++ ['}'])) := by
    rw [List.append_assoc, jsonSearch_append pre _ hpre]
    exact reSearch_some _ _ _ (jsonMatchAt_seObject n body post hn hnq hb)
  unfold extract_tool_calls
  simp only [hsearch, hparse]

/-- Leading text of the C3 amended witness. -/
def preC3w : List Char := ("Sure: ").toList

/-- Name of the C3 amended witness. -/
def nC3w : List Char := ("probe").toList

/-- Brace-free parameters interior of the C3 amended witness. -/
def bodyC3w : List Char := ("\"depth\": 2").toList

/-- Trailing text of the C3 amended witness. -/
def postC3w : List Char := ("<|eot_id|>").toList

/-- C3 amended witness: on the concrete embedded object
`{"name": "probe", "parameters": {"depth": 2}}`, extraction returns
exactly the embedded name and arguments. -/
theorem c3_structured_exact_witness :
    ('{' ∉ preC3w) ∧ nC3w ≠ [] ∧ ('"' ∉ nC3w) ∧ ('}' ∉ bodyC3w) ∧
    jsonParse ('{' :: (bodyC3w ++ ['}'])) =
      some (.jobj [(("depth").toList, .jnum ['2'])]) ∧
    extract_tool_calls (preC3w ++ seObject nC3w bodyC3w ++ postC3w) =
      Except.ok ⟨true,
        [⟨nC3w, .jobj [(("depth").toList, .jnum ['2'])]⟩], none⟩ :=
  ⟨by decide, by decide, by decide, by decide, rfl,
    c3_structured_exact preC3w nC3w bodyC3w postC3w _
      (by decide) (by decide) (by decide) (by decide) rfl⟩
